import Mathlib

/-!
Verification development for the sonnet-ordering puzzle (src/app.js).

The repository file contains two variants of the application; the spec
(§9) follows the refactored variant, the one that keeps the
`hasCheckedAndPassed` flag and the `isButtonDisabled` / `clearSlotState`
helpers. The definitions below embed that variant.

Modelling conventions:
* A slot value (JS `string | null`) is `Option String`; JS truthiness of
  such a value (`null` and `""` are falsy) is the predicate `truthy`.
* The module-level mutable variables form one `GameState` record; the
  pixel-geometry fields (`dragOffset`, `dragClickOffset`, `dragStartPos`,
  `hasDragged`) are never read by the game logic and are omitted.
* Pointer coordinates are already translated to a slot index or `none`
  (that translation, `getSlotAt`, is pure geometry owned by the
  presentation layer).
* `Math.random()`-driven choices in `shuffleArray` are supplied as a list
  of naturals, reduced modulo the live range exactly as
  `Math.floor(Math.random() * (i + 1))` ranges over `0..i`.
* `Date.now()` is supplied as a natural-number argument.
-/

namespace Sonnet

/-- JS truthiness of a slot value (`string | null`): `null` and the empty
string are falsy. -/
def truthy : Option String → Bool
  | none => false
  | some s => decide (s ≠ "")

/-- The module-level game state of src/app.js (refactored variant). -/
structure GameState where
  currentSonnet : Option (List String)
  slots : List (Option String)
  draggedLine : Option String
  draggedSlotIndex : Option (Fin 14)
  isDragging : Bool
  hoveredSlotIndex : Option (Fin 14)
  shakingSlots : Finset ℕ
  shakeStartTime : Option ℕ
  incorrectSlots : Finset ℕ
  checkedSlots : Finset ℕ
  checkOrderCount : ℕ
  hasCheckedAndPassed : Bool
  deriving DecidableEq

/-- The state of the module variables before `initGame()` runs on load. -/
def initialState : GameState where
  currentSonnet := none
  slots := List.replicate 14 none
  draggedLine := none
  draggedSlotIndex := none
  isDragging := false
  hoveredSlotIndex := none
  shakingSlots := ∅
  shakeStartTime := none
  incorrectSlots := ∅
  checkedSlots := ∅
  checkOrderCount := 0
  hasCheckedAndPassed := false

/-- `hasAtLeastOneLinePlaced`: `slots.some(s => s)`. -/
def hasAtLeastOneLinePlaced (st : GameState) : Bool :=
  st.slots.any truthy

/-- `isOrderCorrect`: every slot below the sonnet length holds exactly the
canonical line of its index, and no slot beyond the sonnet length holds
content. -/
def isOrderCorrect (st : GameState) : Bool :=
  match st.currentSonnet with
  | none => false
  | some sonnet =>
    if sonnet.length = 0 then false
    else
      ((List.range sonnet.length).all fun i =>
        decide (st.slots.getD i none = some (sonnet.getD i ""))) &&
      ((List.range' sonnet.length (st.slots.length - sonnet.length)).all fun i =>
        !truthy (st.slots.getD i none))

/-- The two canvas buttons. -/
inductive ButtonKey where
  | checkOrderBtn
  | newSonnetBtn
  deriving DecidableEq

/-- `isButtonDisabled`: Check Order needs at least one placed line; New
Sonnet needs a correct order *and* a passed check. -/
def isButtonDisabled (st : GameState) : ButtonKey → Bool
  | .checkOrderBtn => !hasAtLeastOneLinePlaced st
  | .newSonnetBtn => !isOrderCorrect st || !st.hasCheckedAndPassed

/-- The destructuring swap `[a[i], a[j]] = [a[j], a[i]]` on a list. -/
def swapIdx (l : List α) (i j : ℕ) : List α :=
  match l.get? i, l.get? j with
  | some x, some y => (l.set i y).set j x
  | _, _ => l

/-- The Fisher–Yates loop of `shuffleArray`, counting the loop variable
down; the head of `js` supplies `Math.floor(Math.random() * (i + 1))`
for the current iteration (reduced into the exact range `0..i`). -/
def fyLoop : List α → List ℕ → ℕ → List α
  | l, _, 0 => l
  | l, js, i + 1 => fyLoop (swapIdx l (i + 1) (js.headD 0 % (i + 2))) js.tail i

/-- `shuffleArray`: unbiased in-place shuffle of a copy of the array. -/
def shuffleArray (l : List α) (js : List ℕ) : List α :=
  fyLoop l js (l.length - 1)

/-- `shuffledLines.forEach((line, i) => { slots[slotIndices[i]] = line })`:
writes beyond index 13 of a JS array of length 14 would go to a
non-element property, and `slotIndices[i]` only exists for `i < 14`, so
the iteration is over the zip of the two lists. -/
def placeLines (pairs : List (String × ℕ)) (sl : List (Option String)) :
    List (Option String) :=
  pairs.foldl (fun acc p => acc.set p.2 (some p.1)) sl

/-- `initGame`: draws a canonical sonnet (the Line Source result is the
`sonnetOpt` argument, `null` when no sonnet is available), shuffles the
lines and the slot indices, places the shuffled lines, and resets the
check bookkeeping. A `null` sonnet only alerts and leaves the state. -/
def initGame (st : GameState) (sonnetOpt : Option (List String))
    (js1 js2 : List ℕ) : GameState :=
  match sonnetOpt with
  | none => st
  | some sonnet =>
    let shuffledLines := shuffleArray sonnet js1
    let slotIndices := shuffleArray (List.range 14) js2
    { st with
      currentSonnet := some sonnet
      slots := placeLines (shuffledLines.zip slotIndices) (List.replicate 14 none)
      incorrectSlots := ∅
      checkedSlots := ∅
      checkOrderCount := 0
      hasCheckedAndPassed := false }

/-- `clearSlotState(i, j)`: drop both indices from the incorrect and the
checked sets. -/
def clearSlotState (st : GameState) (i j : ℕ) : GameState :=
  { st with
    incorrectSlots := (st.incorrectSlots.erase i).erase j
    checkedSlots := (st.checkedSlots.erase i).erase j }

/-- `handlePointerDown`, slot-area part: pointer-down on a filled slot
starts a drag session carrying that slot's line (no guard against an
already-active session). Button hits are `checkClick` / `newGameClick`
below; the two areas are geometrically disjoint. -/
def handlePointerDown (st : GameState) (slotHit : Option (Fin 14)) : GameState :=
  match slotHit with
  | some i =>
    if truthy (st.slots.getD i.val none) then
      { st with
        draggedLine := st.slots.getD i.val none
        draggedSlotIndex := some i
        isDragging := true }
    else st
  | none => st

/-- `handlePointerMove`: while dragging, update the hovered slot. -/
def handlePointerMove (st : GameState) (slotHit : Option (Fin 14)) : GameState :=
  if st.isDragging then { st with hoveredSlotIndex := slotHit } else st

/-- `handlePointerUp`: with an active session, a drop on a different valid
slot swaps (target filled) or moves (target empty) and clears the
annotations of both touched slots and the pass flag; a drop outside all
slots or on the source slot changes nothing; the session always ends. -/
def handlePointerUp (st : GameState) (slotHit : Option (Fin 14)) : GameState :=
  if st.isDragging && truthy st.draggedLine then
    let st1 :=
      match slotHit, st.draggedSlotIndex with
      | some k, some src =>
        if src = k then st
        else
          let swapped := (st.slots.set k.val st.draggedLine).set src.val (st.slots.getD k.val none)
          let moved := (st.slots.set src.val none).set k.val st.draggedLine
          let st2 :=
            if truthy (st.slots.getD k.val none) then
              { st with slots := swapped }
            else
              { st with slots := moved }
          { (clearSlotState st2 k.val src.val) with hasCheckedAndPassed := false }
      | _, _ => st
    { st1 with
      isDragging := false
      hoveredSlotIndex := none
      draggedLine := none
      draggedSlotIndex := none }
  else st

/-- Accumulate the indices `i < n` with `p i` into a finite set, in the
order of the source's `for` loops. -/
def addWhere (init : Finset ℕ) (n : ℕ) (p : ℕ → Bool) : Finset ℕ :=
  (List.range n).foldl (fun acc i => if p i then insert i acc else acc) init

/-- The per-slot test of `checkOrder`'s flagging loop:
`const wrong = !content || content !== expected`. -/
def slotWrong (sonnet : List String) (slots : List (Option String)) (i : ℕ) : Bool :=
  let content := slots.getD i none
  let expected : Option String :=
    if i < sonnet.length then some (sonnet.getD i "") else none
  !truthy content || decide (content ≠ expected)

/-- The `slotsToShake` set of `checkOrder`: empty slots plus occupied but
wrong slots. -/
def slotsToShake (sonnet : List String) (slots : List (Option String)) : Finset ℕ :=
  addWhere ∅ slots.length (slotWrong sonnet slots)

/-- `checkOrder`: bumps the counter, re-marks every occupied slot as
checked, recomputes the incorrect set, and either starts the shake timer
(flagged set non-empty, pass flag cleared) or records the pass. -/
def checkOrder (st : GameState) (now : ℕ) : GameState :=
  match st.currentSonnet with
  | none => st
  | some sonnet =>
    let checked2 := addWhere st.checkedSlots st.slots.length
      (fun i => truthy (st.slots.getD i none))
    let incorrect2 := addWhere ∅ st.slots.length
      (fun i => truthy (st.slots.getD i none) && slotWrong sonnet st.slots i)
    let toShake := slotsToShake sonnet st.slots
    if toShake ≠ ∅ then
      { st with
        checkOrderCount := st.checkOrderCount + 1
        checkedSlots := checked2
        incorrectSlots := incorrect2
        hasCheckedAndPassed := false
        shakingSlots := toShake
        shakeStartTime := some now }
    else
      { st with
        checkOrderCount := st.checkOrderCount + 1
        checkedSlots := checked2
        incorrectSlots := ∅
        hasCheckedAndPassed := true }

/-- Pointer-down on the Check Order button: `handlePointerDown` only
dispatches when the button is enabled. -/
def checkClick (st : GameState) (now : ℕ) : GameState :=
  if isButtonDisabled st .checkOrderBtn then st else checkOrder st now

/-- Pointer-down on the New Sonnet button: dispatches `initGame` only when
the button is enabled. -/
def newGameClick (st : GameState) (sonnetOpt : Option (List String))
    (js1 js2 : List ℕ) : GameState :=
  if isButtonDisabled st .newSonnetBtn then st else initGame st sonnetOpt js1 js2

/-- One input event, already translated by the presentation layer. -/
inductive Cmd where
  | pDown (slotHit : Option (Fin 14))
  | pMove (slotHit : Option (Fin 14))
  | pUp (slotHit : Option (Fin 14))
  | checkClk (now : ℕ)
  | newGameClk (sonnetOpt : Option (List String)) (js1 js2 : List ℕ)

/-- Whether a command is a New Sonnet click. -/
def Cmd.isNewGame : Cmd → Bool
  | .newGameClk _ _ _ => true
  | _ => false

/-- Run one event handler. -/
def applyCmd (st : GameState) : Cmd → GameState
  | .pDown h => handlePointerDown st h
  | .pMove h => handlePointerMove st h
  | .pUp h => handlePointerUp st h
  | .checkClk now => checkClick st now
  | .newGameClk s j1 j2 => newGameClick st s j1 j2

/-- Run a sequence of events. -/
def applyCmds (st : GameState) (cs : List Cmd) : GameState :=
  cs.foldl applyCmd st

/-! ### Shake timer (Feedback Timer)

`Math.sin` is idealised as the real sine; everything else in
`getShakeOffset` is discrete. The function reads and writes the module
variables `shakingSlots` / `shakeStartTime`, so it returns the offset
together with the updated state. -/

/-- The decaying oscillation of the active shake branch:
`Math.sin(elapsed * 20 * Math.PI / 1000) * (10 * (1 - elapsed / 500))`. -/
noncomputable def shakeWave (elapsed : ℕ) : ℝ :=
  Real.sin ((elapsed : ℝ) * 20 * Real.pi / 1000) * (10 * (1 - (elapsed : ℝ) / 500))

/-- `getShakeOffset`: no start time (JS also treats a zero timestamp as
falsy) returns 0; an elapsed time of at least 500 ms clears the timer
state and returns 0; otherwise the decaying wave. -/
noncomputable def getShakeOffset (st : GameState) (now : ℕ) : ℝ × GameState :=
  match st.shakeStartTime with
  | none => (0, st)
  | some t =>
    if t = 0 then (0, st)
    else
      let elapsed := now - t
      if 500 ≤ elapsed then
        (0, { st with shakingSlots := ∅, shakeStartTime := none })
      else
        (shakeWave elapsed, st)

/-- The per-slot offset used by `render`:
`shakingSlots.has(i) ? getShakeOffset() : 0`. -/
noncomputable def offsetFor (st : GameState) (i : ℕ) (now : ℕ) : ℝ × GameState :=
  if i ∈ st.shakingSlots then getShakeOffset st now else (0, st)


/-! ### Invariant predicates and concrete fixtures -/

/-- A slot's contribution to the placed-line multiset: its line when the
slot is occupied (JS-truthy), nothing otherwise. -/
def keepLine : Option String → Option String
  | none => none
  | some s => if s = "" then none else some s

/-- The non-empty slot contents, in slot order. -/
def placedLines (sl : List (Option String)) : List String :=
  sl.filterMap keepLine

/-- The valid drag-session invariant: while a session is active, the
carried line is the (occupied) content of the source slot. -/
def dragOk (st : GameState) : Prop :=
  ∃ (src : Fin 14) (l : String),
    st.draggedSlotIndex = some src ∧ st.draggedLine = some l ∧ l ≠ "" ∧
    st.slots.getD src.val none = some l

/-- The combined gesture invariant: the slot array keeps its 14 entries
and any active session is valid. -/
def GInv (st : GameState) : Prop :=
  st.slots.length = 14 ∧ (st.isDragging = true → dragOk st)

/-- Every index in the checked or incorrect set denotes an occupied slot. -/
def annOK (st : GameState) : Prop :=
  ∀ i : ℕ, (i ∈ st.checkedSlots ∨ i ∈ st.incorrectSlots) →
    truthy (st.slots.getD i none) = true

/-- A 14-line canonical sequence of pairwise distinct non-empty lines. -/
def sonnetA : List String :=
  ["L01", "L02", "L03", "L04", "L05", "L06", "L07",
   "L08", "L09", "L10", "L11", "L12", "L13", "L14"]

/-- A 14-line canonical sequence whose first two lines have the same text. -/
def dupSonnet : List String :=
  ["dup", "dup", "L03", "L04", "L05", "L06", "L07",
   "L08", "L09", "L10", "L11", "L12", "L13", "L14"]

/-- Random draws that make `shuffleArray` the identity permutation
(each iteration swaps an index with itself). -/
def idJs : List ℕ := [13, 12, 11, 10, 9, 8, 7, 6, 5, 4, 3, 2, 1]

/-- A board holding `sonnetA` fully in order. -/
def stFull : GameState :=
  { initialState with
    currentSonnet := some sonnetA
    slots := sonnetA.map some }

/-- `stFull` with an active drag session picked up at slot 0. -/
def stDrag : GameState :=
  { stFull with
    isDragging := true
    draggedLine := some "L01"
    draggedSlotIndex := some 0 }

/-- A state with an active shake timer (start time 100) flagging slot 0. -/
def stShake : GameState :=
  { initialState with
    shakingSlots := {0}
    shakeStartTime := some 100 }

/-- The state `initGame` produces from `dupSonnet` with identity shuffles. -/
def ex5 : GameState := initGame initialState (some dupSonnet) idJs idJs

/-- A state with an active session at slot 0, slots 0 and 1 occupied. -/
def ex9 : GameState :=
  { initialState with
    slots := [some "A", some "B"] ++ List.replicate 12 none
    isDragging := true
    draggedLine := some "A"
    draggedSlotIndex := some 0 }

/-! ### List helpers -/

theorem getD_set_ne (l : List α) (k j : ℕ) (v d : α) (h : k ≠ j) :
    (l.set k v).getD j d = l.getD j d := by
  rw [List.getD_eq_getD_get?, List.getD_eq_getD_get?, List.get?_set_ne v l h]

theorem get?_eq_some_getD (l : List α) (n : ℕ) (d : α) (hn : n < l.length) :
    l.get? n = some (l.getD n d) := by
  cases h : l.get? n with
  | none => exact absurd (List.get?_eq_none.1 h) (by omega)
  | some o => rw [List.getD_eq_getD_get?, h]; rfl

theorem get?_of_getD_some (l : List (Option String)) (n : ℕ) (x : String)
    (h : l.getD n none = some x) : l.get? n = some (some x) := by
  cases ho : l.get? n with
  | none => rw [List.getD_eq_getD_get?, ho] at h; simp at h
  | some o =>
    rw [List.getD_eq_getD_get?, ho] at h
    have ho2 : o = some x := by simpa using h
    rw [ho2]

theorem lt_length_of_getD_some (l : List (Option String)) (n : ℕ) (x : String)
    (h : l.getD n none = some x) : n < l.length := by
  by_contra hn
  rw [List.getD_eq_default l none (by omega)] at h
  exact Option.noConfusion h

/-- Replacing the element at an in-range index changes the count of any
value by exactly the swap of the old and the new contributions. -/
theorem count_set_add [BEq α] (l : List α) (k : ℕ) (x v b : α)
    (hx : l.get? k = some x) :
    (l.set k v).count b + (if x == b then 1 else 0) =
      l.count b + (if v == b then 1 else 0) := by
  induction l generalizing k with
  | nil => simp at hx
  | cons a t ih =>
    cases k with
    | zero =>
      obtain rfl : a = x := by simpa using hx
      simp only [List.set, List.count_cons]
      omega
    | succ k =>
      have hx' : t.get? k = some x := by simpa using hx
      have := ih k hx'
      simp only [List.set, List.count_cons]
      omega

theorem count_swapIdx [BEq α] (l : List α) (i j : ℕ) (b : α) :
    (swapIdx l i j).count b = l.count b := by
  unfold swapIdx
  cases hi : l.get? i with
  | none => rfl
  | some x =>
    cases hj : l.get? j with
    | none => rfl
    | some y =>
      simp only
      by_cases hij : i = j
      · subst hij
        rw [hi] at hj
        obtain rfl : x = y := by simpa using hj
        rw [List.set_set]
        have h1 := count_set_add l i x x b hi
        omega
      · have h1 := count_set_add l i x y b hi
        have hj' : (l.set i y).get? j = some y := by
          rw [List.get?_set_ne y l hij, hj]
        have h2 := count_set_add (l.set i y) j y x b hj'
        omega

theorem count_fyLoop [BEq α] (l : List α) (js : List ℕ) (n : ℕ) (b : α) :
    (fyLoop l js n).count b = l.count b := by
  induction n generalizing l js with
  | zero => rfl
  | succ n ih => rw [fyLoop, ih, count_swapIdx]

theorem count_shuffleArray [BEq α] (l : List α) (js : List ℕ) (b : α) :
    (shuffleArray l js).count b = l.count b :=
  count_fyLoop l js (l.length - 1) b

theorem length_placeLines (pairs : List (String × ℕ)) (sl : List (Option String)) :
    (placeLines pairs sl).length = sl.length := by
  induction pairs generalizing sl with
  | nil => rfl
  | cons p ps ih => rw [placeLines] at *; simpa [List.foldl_cons] using ih (sl.set p.2 (some p.1))

theorem mem_addWhere (init : Finset ℕ) (n : ℕ) (p : ℕ → Bool) (i : ℕ) :
    i ∈ addWhere init n p ↔ i ∈ init ∨ (i < n ∧ p i = true) := by
  induction n generalizing init with
  | zero => simp [addWhere]
  | succ n ih =>
    unfold addWhere at *
    rw [List.range_succ, List.foldl_append]
    simp only [List.foldl_cons, List.foldl_nil]
    by_cases hp : p n
    · rw [hp]
      simp only [if_true, Finset.mem_insert, ih]
      constructor
      · rintro (rfl | h | ⟨h1, h2⟩)
        · exact Or.inr ⟨by omega, hp⟩
        · exact Or.inl h
        · exact Or.inr ⟨by omega, h2⟩
      · rintro (h | ⟨h1, h2⟩)
        · exact Or.inr (Or.inl h)
        · rcases (by omega : i < n ∨ i = n) with h1' | rfl
          · exact Or.inr (Or.inr ⟨h1', h2⟩)
          · exact Or.inl rfl
    · rw [if_neg (by simpa using hp)]
      rw [ih]
      constructor
      · rintro (h | ⟨h1, h2⟩)
        · exact Or.inl h
        · exact Or.inr ⟨by omega, h2⟩
      · rintro (h | ⟨h1, h2⟩)
        · exact Or.inl h
        · rcases (by omega : i < n ∨ i = n) with h1' | rfl
          · exact Or.inr ⟨h1', h2⟩
          · exact absurd h2 (by simpa using hp)

/-! ### The multiset of placed lines -/


theorem placedLines_cons_none (t : List (Option String)) :
    placedLines (none :: t) = placedLines t := by
  simp [placedLines, List.filterMap_cons, keepLine]

theorem placedLines_cons_blank (t : List (Option String)) :
    placedLines (some "" :: t) = placedLines t := by
  simp [placedLines, List.filterMap_cons, keepLine]

theorem placedLines_cons_some (u : String) (hu : u ≠ "") (t : List (Option String)) :
    placedLines (some u :: t) = u :: placedLines t := by
  simp [placedLines, List.filterMap_cons, keepLine, hu]

theorem count_placedLines (sl : List (Option String)) (s : String) (hs : s ≠ "") :
    (placedLines sl).count s = sl.count (some s) := by
  induction sl with
  | nil => rfl
  | cons o t ih =>
    cases o with
    | none => rw [placedLines_cons_none, ih]; simp [List.count_cons]
    | some u =>
      by_cases hu : u = ""
      · subst hu
        rw [placedLines_cons_blank, ih]
        simp [List.count_cons, Ne.symm hs]
      · rw [placedLines_cons_some u hu t]
        simp [List.count_cons, ih]

theorem count_placedLines_empty (sl : List (Option String)) :
    (placedLines sl).count "" = 0 := by
  induction sl with
  | nil => rfl
  | cons o t ih =>
    cases o with
    | none => rw [placedLines_cons_none]; exact ih
    | some u =>
      by_cases hu : u = ""
      · subst hu; rw [placedLines_cons_blank]; exact ih
      · rw [placedLines_cons_some u hu t]
        simp [List.count_cons, hu, ih]


/-- A drop preserves the count of every line among the occupied slots. -/
theorem count_handlePointerUp (st : GameState) (target : Option (Fin 14))
    (hinv : GInv st) (s : String) (hs : s ≠ "") :
    (handlePointerUp st target).slots.count (some s) = st.slots.count (some s) := by
  obtain ⟨hlen, hdrag⟩ := hinv
  unfold handlePointerUp
  by_cases hg : st.isDragging = true ∧ truthy st.draggedLine = true
  · rw [if_pos (by simp [hg.1, hg.2])]
    obtain ⟨src, l, hsrc, hline, hl, hslot⟩ := hdrag hg.1
    cases target with
    | none => simp [hsrc]
    | some k =>
      rw [hsrc]
      simp only
      by_cases hsk : src = k
      · rw [if_pos hsk]
      · rw [if_neg hsk]
        have hksrc : k.val ≠ src.val := fun h => hsk (Fin.ext h.symm)
        have hsrck : src.val ≠ k.val := fun h => hsk (Fin.ext h)
        have hq1 : st.slots.get? src.val = some (some l) := get?_of_getD_some _ _ _ hslot
        have hklt : k.val < st.slots.length := by rw [hlen]; exact k.isLt
        have hq2 : st.slots.get? k.val = some (st.slots.getD k.val none) :=
          get?_eq_some_getD _ _ _ hklt
        by_cases hocc : truthy (st.slots.getD k.val none) = true
        · -- swap branch
          rw [if_pos hocc]
          simp only [clearSlotState]
          have e1 := count_set_add st.slots k.val (st.slots.getD k.val none)
            st.draggedLine (some s) hq2
          have hq1' : (st.slots.set k.val st.draggedLine).get? src.val = some (some l) := by
            rw [List.get?_set_ne _ _ hksrc]; exact hq1
          have e2 := count_set_add (st.slots.set k.val st.draggedLine) src.val (some l)
            (st.slots.getD k.val none) (some s) hq1'
          simp only [hline] at e1 e2 ⊢
          omega
        · -- move branch
          rw [if_neg hocc]
          simp only [clearSlotState]
          have e1 := count_set_add st.slots src.val (some l) none (some s) hq1
          have hq2' : (st.slots.set src.val none).get? k.val =
              some (st.slots.getD k.val none) := by
            rw [List.get?_set_ne _ _ hsrck]; exact hq2
          have e2 := count_set_add (st.slots.set src.val none) k.val
            (st.slots.getD k.val none) st.draggedLine (some s) hq2'
          simp only [hline] at e1 e2 ⊢
          have hz : ((st.slots.getD k.val none == some s) = false) := by
            cases ho : st.slots.getD k.val none with
            | none => simp
            | some u =>
              rw [ho] at hocc
              have hu : u = "" := by simpa [truthy] using hocc
              subst hu
              simp [Ne.symm hs]
          rw [hz] at e2
          have hz2 : ((none : Option String) == some s) = false := by simp
          rw [hz2] at e1
          simp only [if_neg Bool.false_ne_true] at e1 e2
          omega
  · rw [if_neg (by simpa using fun h1 h2 => hg ⟨h1, h2⟩)]

/-! ### Preservation of the gesture invariant -/

theorem slots_handlePointerDown (st : GameState) (hit : Option (Fin 14)) :
    (handlePointerDown st hit).slots = st.slots := by
  unfold handlePointerDown
  cases hit with
  | none => rfl
  | some i => dsimp only; split <;> rfl

theorem slots_handlePointerMove (st : GameState) (hit : Option (Fin 14)) :
    (handlePointerMove st hit).slots = st.slots := by
  unfold handlePointerMove; split <;> rfl

theorem checkOrder_projs (st : GameState) (now : ℕ) :
    (checkOrder st now).slots = st.slots ∧
    (checkOrder st now).isDragging = st.isDragging ∧
    (checkOrder st now).draggedLine = st.draggedLine ∧
    (checkOrder st now).draggedSlotIndex = st.draggedSlotIndex := by
  unfold checkOrder
  cases st.currentSonnet with
  | none => exact ⟨rfl, rfl, rfl, rfl⟩
  | some sonnet => simp only; split <;> exact ⟨rfl, rfl, rfl, rfl⟩

theorem checkClick_projs (st : GameState) (now : ℕ) :
    (checkClick st now).slots = st.slots ∧
    (checkClick st now).isDragging = st.isDragging ∧
    (checkClick st now).draggedLine = st.draggedLine ∧
    (checkClick st now).draggedSlotIndex = st.draggedSlotIndex := by
  unfold checkClick
  split
  · exact ⟨rfl, rfl, rfl, rfl⟩
  · exact checkOrder_projs st now

theorem GInv_handlePointerDown (st : GameState) (hit : Option (Fin 14)) (h : GInv st) :
    GInv (handlePointerDown st hit) := by
  obtain ⟨hlen, hdrag⟩ := h
  unfold handlePointerDown
  cases hit with
  | none => exact ⟨hlen, hdrag⟩
  | some i =>
    dsimp only
    by_cases ht : truthy (st.slots.getD i.val none) = true
    · rw [if_pos ht]
      refine ⟨hlen, fun _ => ?_⟩
      cases ho : st.slots.getD i.val none with
      | none => rw [ho] at ht; simp [truthy] at ht
      | some u =>
        refine ⟨i, u, rfl, by simp [ho], ?_, by simpa using ho⟩
        rw [ho] at ht
        simpa [truthy] using ht
    · rw [if_neg ht]; exact ⟨hlen, hdrag⟩

theorem GInv_handlePointerMove (st : GameState) (hit : Option (Fin 14)) (h : GInv st) :
    GInv (handlePointerMove st hit) := by
  obtain ⟨hlen, hdrag⟩ := h
  unfold handlePointerMove
  split
  · refine ⟨hlen, fun _ => ?_⟩
    obtain ⟨src, l, h1, h2, h3, h4⟩ := hdrag (by assumption)
    exact ⟨src, l, h1, h2, h3, h4⟩
  · exact ⟨hlen, hdrag⟩

theorem GInv_handlePointerUp (st : GameState) (target : Option (Fin 14)) (h : GInv st) :
    GInv (handlePointerUp st target) := by
  obtain ⟨hlen, hdrag⟩ := h
  unfold handlePointerUp
  by_cases hg : (st.isDragging && truthy st.draggedLine) = true
  · rw [if_pos hg]
    refine ⟨?_, fun hc => absurd hc (by simp)⟩
    cases target with
    | none => cases st.draggedSlotIndex <;> simpa using hlen
    | some k =>
      cases st.draggedSlotIndex with
      | none => simpa using hlen
      | some src =>
        simp only
        by_cases hsk : src = k
        · rw [if_pos hsk]; simpa using hlen
        · rw [if_neg hsk]
          by_cases hocc : truthy (st.slots.getD k.val none) = true
          · rw [if_pos hocc]; simpa [clearSlotState, List.length_set] using hlen
          · rw [if_neg hocc]; simpa [clearSlotState, List.length_set] using hlen
  · rw [if_neg hg]; exact ⟨hlen, hdrag⟩

theorem GInv_checkClick (st : GameState) (now : ℕ) (h : GInv st) :
    GInv (checkClick st now) := by
  obtain ⟨hlen, hdrag⟩ := h
  obtain ⟨hs, hd, hl, hi⟩ := checkClick_projs st now
  refine ⟨by rw [hs]; exact hlen, fun hdr => ?_⟩
  obtain ⟨src, l, h1, h2, h3, h4⟩ := hdrag (by rw [← hd]; exact hdr)
  exact ⟨src, l, by rw [hi]; exact h1, by rw [hl]; exact h2, h3, by rw [hs]; exact h4⟩

/-- One non-New-Sonnet event preserves the gesture invariant and the
count of every non-empty line among the slots. -/
theorem count_applyCmd (st : GameState) (c : Cmd) (h : GInv st)
    (hng : c.isNewGame = false) :
    GInv (applyCmd st c) ∧
      ∀ s : String, s ≠ "" →
        (applyCmd st c).slots.count (some s) = st.slots.count (some s) := by
  cases c with
  | pDown hit =>
    exact ⟨GInv_handlePointerDown st hit h,
      fun s _ => by show ((handlePointerDown st hit).slots.count (some s)) = _; rw [slots_handlePointerDown]⟩
  | pMove hit =>
    exact ⟨GInv_handlePointerMove st hit h,
      fun s _ => by show ((handlePointerMove st hit).slots.count (some s)) = _; rw [slots_handlePointerMove]⟩
  | pUp hit =>
    exact ⟨GInv_handlePointerUp st hit h,
      fun s hs => count_handlePointerUp st hit h s hs⟩
  | checkClk now =>
    exact ⟨GInv_checkClick st now h,
      fun s _ => by show ((checkClick st now).slots.count (some s)) = _; rw [(checkClick_projs st now).1]⟩
  | newGameClk s1 j1 j2 => simp [Cmd.isNewGame] at hng

theorem count_applyCmds (st : GameState) (cs : List Cmd) (h : GInv st)
    (hng : ∀ c ∈ cs, c.isNewGame = false) :
    GInv (applyCmds st cs) ∧
      ∀ s : String, s ≠ "" →
        (applyCmds st cs).slots.count (some s) = st.slots.count (some s) := by
  induction cs generalizing st with
  | nil => exact ⟨h, fun _ _ => rfl⟩
  | cons c cs ih =>
    obtain ⟨h1, h2⟩ := count_applyCmd st c h (hng c (List.mem_cons_self c cs))
    obtain ⟨h3, h4⟩ := ih (applyCmd st c) h1 (fun d hd => hng d (List.mem_cons_of_mem c hd))
    refine ⟨h3, fun s hs => ?_⟩
    rw [applyCmds] at *
    rw [List.foldl_cons, h4 s hs, h2 s hs]

/-! ### The annotation invariant: marked slots are occupied -/


theorem annOK_handlePointerDown (st : GameState) (hit : Option (Fin 14))
    (h : annOK st) : annOK (handlePointerDown st hit) := by
  unfold handlePointerDown
  cases hit with
  | none => exact h
  | some i =>
    dsimp only
    split
    · intro j hj; exact h j hj
    · exact h

theorem annOK_handlePointerMove (st : GameState) (hit : Option (Fin 14))
    (h : annOK st) : annOK (handlePointerMove st hit) := by
  unfold handlePointerMove
  split
  · intro j hj; exact h j hj
  · exact h

theorem annOK_handlePointerUp (st : GameState) (target : Option (Fin 14))
    (h : annOK st) : annOK (handlePointerUp st target) := by
  unfold handlePointerUp
  by_cases hg : (st.isDragging && truthy st.draggedLine) = true
  · rw [if_pos hg]
    cases target with
    | none =>
      cases st.draggedSlotIndex with
      | none => intro j hj; exact h j hj
      | some src => intro j hj; exact h j hj
    | some k =>
      cases st.draggedSlotIndex with
      | none => intro j hj; exact h j hj
      | some src =>
        dsimp only
        by_cases hsk : src = k
        · rw [if_pos hsk]; intro j hj; exact h j hj
        · rw [if_neg hsk]
          have hkv : (st.isDragging && truthy st.draggedLine) = true := hg
          by_cases hocc : truthy (st.slots.getD k.val none) = true
          · rw [if_pos hocc]
            intro j hj
            simp only [clearSlotState, Finset.mem_erase] at hj
            simp only [clearSlotState]
            obtain ⟨hjs, hjk, hmem⟩ | ⟨hjs, hjk, hmem⟩ := hj <;>
            · rw [getD_set_ne _ _ _ _ _ (fun he => hjs he.symm),
                getD_set_ne _ _ _ _ _ (fun he => hjk he.symm)]
              exact h j (by tauto)
          · rw [if_neg hocc]
            intro j hj
            simp only [clearSlotState, Finset.mem_erase] at hj
            simp only [clearSlotState]
            obtain ⟨hjs, hjk, hmem⟩ | ⟨hjs, hjk, hmem⟩ := hj <;>
            · rw [getD_set_ne _ _ _ _ _ (fun he => hjk he.symm),
                getD_set_ne _ _ _ _ _ (fun he => hjs he.symm)]
              exact h j (by tauto)
  · rw [if_neg hg]; exact h

theorem annOK_checkOrder (st : GameState) (now : ℕ) (h : annOK st) :
    annOK (checkOrder st now) := by
  unfold checkOrder
  cases hso : st.currentSonnet with
  | none => exact h
  | some sonnet =>
    dsimp only
    split
    · intro j hj
      simp only at hj
      rcases hj with hj | hj
      · rcases (mem_addWhere _ _ _ _).1 hj with hmem | ⟨_, hp⟩
        · exact h j (Or.inl hmem)
        · exact hp
      · rcases (mem_addWhere _ _ _ _).1 hj with hmem | ⟨_, hp⟩
        · simp at hmem
        · simp only [Bool.and_eq_true] at hp
          exact hp.1
    · intro j hj
      simp only at hj
      rcases hj with hj | hj
      · rcases (mem_addWhere _ _ _ _).1 hj with hmem | ⟨_, hp⟩
        · exact h j (Or.inl hmem)
        · exact hp
      · simp at hj

theorem annOK_checkClick (st : GameState) (now : ℕ) (h : annOK st) :
    annOK (checkClick st now) := by
  unfold checkClick
  split
  · exact h
  · exact annOK_checkOrder st now h

theorem annOK_initGame (st : GameState) (so : Option (List String))
    (js1 js2 : List ℕ) (h : annOK st) : annOK (initGame st so js1 js2) := by
  unfold initGame
  cases so with
  | none => exact h
  | some sonnet => intro j hj; simp at hj

theorem annOK_newGameClick (st : GameState) (so : Option (List String))
    (js1 js2 : List ℕ) (h : annOK st) : annOK (newGameClick st so js1 js2) := by
  unfold newGameClick
  split
  · exact h
  · exact annOK_initGame st so js1 js2 h

theorem annOK_applyCmd (st : GameState) (c : Cmd) (h : annOK st) :
    annOK (applyCmd st c) := by
  cases c with
  | pDown hit => exact annOK_handlePointerDown st hit h
  | pMove hit => exact annOK_handlePointerMove st hit h
  | pUp hit => exact annOK_handlePointerUp st hit h
  | checkClk now => exact annOK_checkClick st now h
  | newGameClk so j1 j2 => exact annOK_newGameClick st so j1 j2 h

theorem annOK_applyCmds (st : GameState) (cs : List Cmd) (h : annOK st) :
    annOK (applyCmds st cs) := by
  induction cs generalizing st with
  | nil => exact h
  | cons c cs ih => exact ih (applyCmd st c) (annOK_applyCmd st c h)

/-! ### Shuffle-and-place counting facts -/

theorem isDragging_initGame (st : GameState) (so : Option (List String))
    (js1 js2 : List ℕ) : (initGame st so js1 js2).isDragging = st.isDragging := by
  unfold initGame; cases so <;> rfl

theorem length_initGame (st : GameState) (so : Option (List String))
    (js1 js2 : List ℕ) (h : st.slots.length = 14) :
    (initGame st so js1 js2).slots.length = 14 := by
  unfold initGame
  cases so with
  | none => exact h
  | some sonnet =>
    show (placeLines _ _).length = 14
    rw [length_placeLines]
    simp

theorem count_map_fst_zip [BEq α] (a : List α) (b : List β) (s : α) :
    ((a.zip b).map Prod.fst).count s ≤ a.count s := by
  induction a generalizing b with
  | nil => simp
  | cons x xs ih =>
    cases b with
    | nil => simp
    | cons y ys =>
      rw [List.zip_cons_cons, List.map_cons, List.count_cons, List.count_cons]
      dsimp only
      have := ih ys
      omega

theorem count_placeLines_le (pairs : List (String × ℕ)) (sl : List (Option String))
    (s : String) :
    (placeLines pairs sl).count (some s) ≤
      sl.count (some s) + (pairs.map Prod.fst).count s := by
  induction pairs generalizing sl with
  | nil => simp [placeLines]
  | cons p ps ih =>
    have hstep : (sl.set p.2 (some p.1)).count (some s) ≤
        sl.count (some s) + (if (some p.1 : Option String) == some s then 1 else 0) := by
      by_cases hlt : p.2 < sl.length
      · have hq := get?_eq_some_getD sl p.2 none hlt
        have := count_set_add sl p.2 (sl.getD p.2 none) (some p.1) (some s) hq
        omega
      · rw [List.set_eq_of_length_le (by omega)]
        omega
    have hrec := ih (sl.set p.2 (some p.1))
    have hcons : (placeLines (p :: ps) sl) = placeLines ps (sl.set p.2 (some p.1)) := rfl
    rw [hcons, List.map_cons, List.count_cons]
    have hbeq : ((some p.1 : Option String) == some s) = (p.1 == s) := rfl
    rw [hbeq] at hstep
    omega

theorem count_le_one_of_nodup (l : List String) (h : l.Nodup) (s : String) :
    l.count s ≤ 1 := by
  induction l with
  | nil => simp
  | cons a t ih =>
    rcases List.nodup_cons.1 h with ⟨hna, ht⟩
    rw [List.count_cons]
    by_cases has : s = a
    · subst has
      have h0 : t.count s = 0 := by
        rw [List.count_eq_zero]
        exact hna
      simp [h0]
    · have hb : (a == s) = false := by
        simpa using Ne.symm has
      rw [hb]
      simpa using ih ht

/-! ### Claims -/

/-- Claim C1: with an active drag session started by picking up slot
`src`, a drop whose target is outside all slots or is `src` itself leaves
every slot's content, both annotation sets, the shake set, the pass flag
and the attempt counter unchanged (the carried line is still at `src`),
and the drag session is ended. -/
theorem c1_aborted_drop_lossless (st : GameState) (src : Fin 14) (l : String)
    (target : Option (Fin 14))
    (h1 : st.isDragging = true) (h2 : st.draggedLine = some l) (h3 : l ≠ "")
    (h4 : st.draggedSlotIndex = some src)
    (h5 : st.slots.getD src.val none = some l)
    (h6 : target = none ∨ target = some src) :
    (handlePointerUp st target).slots = st.slots ∧
    (handlePointerUp st target).slots.getD src.val none = some l ∧
    (handlePointerUp st target).checkedSlots = st.checkedSlots ∧
    (handlePointerUp st target).incorrectSlots = st.incorrectSlots ∧
    (handlePointerUp st target).shakingSlots = st.shakingSlots ∧
    (handlePointerUp st target).hasCheckedAndPassed = st.hasCheckedAndPassed ∧
    (handlePointerUp st target).checkOrderCount = st.checkOrderCount ∧
    (handlePointerUp st target).isDragging = false ∧
    (handlePointerUp st target).draggedLine = none ∧
    (handlePointerUp st target).draggedSlotIndex = none := by
  have hguard : (st.isDragging && truthy st.draggedLine) = true := by
    rw [h1, h2]
    simp [truthy, h3]
  unfold handlePointerUp
  rw [if_pos hguard, h4]
  rcases h6 with rfl | rfl
  · exact ⟨rfl, h5, rfl, rfl, rfl, rfl, rfl, rfl, rfl, rfl⟩
  · dsimp only
    rw [if_pos rfl]
    exact ⟨rfl, h5, rfl, rfl, rfl, rfl, rfl, rfl, rfl, rfl⟩

theorem c1_witness :
    (handlePointerUp stDrag none).slots = stDrag.slots ∧
    (handlePointerUp stDrag none).slots.getD (0 : Fin 14).val none = some "L01" ∧
    (handlePointerUp stDrag none).checkedSlots = stDrag.checkedSlots ∧
    (handlePointerUp stDrag none).incorrectSlots = stDrag.incorrectSlots ∧
    (handlePointerUp stDrag none).shakingSlots = stDrag.shakingSlots ∧
    (handlePointerUp stDrag none).hasCheckedAndPassed = stDrag.hasCheckedAndPassed ∧
    (handlePointerUp stDrag none).checkOrderCount = stDrag.checkOrderCount ∧
    (handlePointerUp stDrag none).isDragging = false ∧
    (handlePointerUp stDrag none).draggedLine = none ∧
    (handlePointerUp stDrag none).draggedSlotIndex = none :=
  c1_aborted_drop_lossless stDrag 0 "L01" none rfl rfl (by decide) rfl (by decide)
    (Or.inl rfl)

/-- Claim C3: starting a new puzzle is permitted exactly when the board
is fully correct and the most recent check passed; a correct board whose
pass flag is not set keeps the New Sonnet button disabled. -/
theorem c3_new_puzzle_gate (st : GameState) :
    isButtonDisabled st .newSonnetBtn = false ↔
      (isOrderCorrect st = true ∧ st.hasCheckedAndPassed = true) := by
  show (!isOrderCorrect st || !st.hasCheckedAndPassed) = false ↔ _
  cases h1 : isOrderCorrect st <;> cases h2 : st.hasCheckedAndPassed <;> simp

/-- Claim C4: a Check Order click on a board with no occupied slot is a
silent no-op: the whole state, in particular the attempt counter and both
annotation sets, stays exactly as it was. -/
theorem c4_check_empty_board_noop (st : GameState) (now : ℕ)
    (h : ∀ o ∈ st.slots, truthy o = false) :
    checkClick st now = st := by
  unfold checkClick
  have hany : st.slots.any truthy = false := by
    rw [List.any_eq_false]
    intro x hx
    simp [h x hx]
  have hd : isButtonDisabled st .checkOrderBtn = true := by
    show (!hasAtLeastOneLinePlaced st) = true
    unfold hasAtLeastOneLinePlaced
    rw [hany]
    rfl
  rw [if_pos hd]

theorem c4_witness : checkClick initialState 7 = initialState :=
  c4_check_empty_board_noop initialState 7 (by decide)

/-- Claim C9, counterexample: a pointer-down on a filled slot while a
drag session is already active is not ignored — the session is replaced
by one for the new slot. -/
theorem c9_counterexample :
    ex9.isDragging = true ∧ ex9.draggedSlotIndex = some (0 : Fin 14) ∧
    ex9.draggedLine = some "A" ∧ truthy (ex9.slots.getD 1 none) = true ∧
    (handlePointerDown ex9 (some (1 : Fin 14))).draggedSlotIndex ≠ some (0 : Fin 14) ∧
    (handlePointerDown ex9 (some (1 : Fin 14))).draggedSlotIndex = some (1 : Fin 14) ∧
    (handlePointerDown ex9 (some (1 : Fin 14))).draggedLine = some "B" := by
  decide

/-- Claim C9, amended: a further pointer-down on a filled slot while a
session is active replaces the session — the last gesture wins, and there
is still exactly one session, now carrying the new slot's line. -/
theorem c9_amended_last_pickup_wins (st : GameState) (i : Fin 14)
    (hocc : truthy (st.slots.getD i.val none) = true) :
    (handlePointerDown st (some i)).isDragging = true ∧
    (handlePointerDown st (some i)).draggedSlotIndex = some i ∧
    (handlePointerDown st (some i)).draggedLine = st.slots.getD i.val none := by
  unfold handlePointerDown
  dsimp only
  rw [if_pos hocc]
  exact ⟨rfl, rfl, rfl⟩

theorem c9_amended_witness :
    (handlePointerDown ex9 (some (1 : Fin 14))).isDragging = true ∧
    (handlePointerDown ex9 (some (1 : Fin 14))).draggedSlotIndex = some (1 : Fin 14) ∧
    (handlePointerDown ex9 (some (1 : Fin 14))).draggedLine =
      ex9.slots.getD (1 : Fin 14).val none :=
  c9_amended_last_pickup_wins ex9 1 (by decide)

/-- Claim C5, counterexample: when the canonical sequence contains the
same line text twice, the state `newPuzzle` (`initGame`) produces holds
that text in two different slots at once. -/
theorem c5_counterexample :
    ex5.currentSonnet = some dupSonnet ∧
    ex5.slots.getD 0 none = some "dup" ∧
    ex5.slots.getD 1 none = some "dup" ∧
    truthy (ex5.slots.getD 0 none) = true ∧ (0 : ℕ) ≠ 1 := by
  decide

/-- Claim C5, amended: provided the canonical sequence has pairwise
distinct line texts, every state reachable from `initGame` by
pick-up/hover/drop gestures and Check Order clicks holds each line text
in at most one slot. -/
theorem c5_amended_no_duplicate_placement (sonnet : List String)
    (js1 js2 : List ℕ) (cs : List Cmd) (s : String)
    (hnodup : sonnet.Nodup)
    (hng : ∀ c ∈ cs, c.isNewGame = false) :
    (placedLines
      (applyCmds (initGame initialState (some sonnet) js1 js2) cs).slots).count s ≤ 1 := by
  have hlen : (initGame initialState (some sonnet) js1 js2).slots.length = 14 :=
    length_initGame initialState (some sonnet) js1 js2 (by simp [initialState])
  have hdrag : (initGame initialState (some sonnet) js1 js2).isDragging = true →
      dragOk (initGame initialState (some sonnet) js1 js2) := by
    intro hc
    rw [isDragging_initGame] at hc
    exact absurd hc (by simp [initialState])
  have h2 := (count_applyCmds (initGame initialState (some sonnet) js1 js2) cs
    ⟨hlen, hdrag⟩ hng).2
  by_cases hs : s = ""
  · subst hs
    rw [count_placedLines_empty]
    omega
  · rw [count_placedLines _ s hs, h2 s hs]
    have hslots : (initGame initialState (some sonnet) js1 js2).slots =
        placeLines ((shuffleArray sonnet js1).zip (shuffleArray (List.range 14) js2))
          (List.replicate 14 none) := rfl
    rw [hslots]
    have hb := count_placeLines_le
      ((shuffleArray sonnet js1).zip (shuffleArray (List.range 14) js2))
      (List.replicate 14 none) s
    have hz : (List.replicate 14 (none : Option String)).count (some s) = 0 := by simp
    have hmap := count_map_fst_zip (shuffleArray sonnet js1)
      (shuffleArray (List.range 14) js2) s
    have hshuf : (shuffleArray sonnet js1).count s = sonnet.count s :=
      count_shuffleArray sonnet js1 s
    have hn : sonnet.count s ≤ 1 := count_le_one_of_nodup sonnet hnodup s
    omega

theorem c5_amended_witness :
    (placedLines
      (applyCmds (initGame initialState (some sonnetA) idJs idJs)
        [Cmd.pUp none]).slots).count "L01" ≤ 1 :=
  c5_amended_no_duplicate_placement sonnetA idJs idJs [Cmd.pUp none] "L01"
    (by decide) (by decide)

/-- Claim C2: along any sequence of pick-up/hover/drop gestures and Check
Order clicks from a state whose drag session (if any) is valid, the
multiset of non-empty slot contents never changes — a swap keeps both
lines, a move keeps the moved line, and a drop outside all slots changes
nothing. -/
theorem c2_multiset_conserved (st : GameState) (cs : List Cmd)
    (hlen : st.slots.length = 14)
    (hdrag : st.isDragging = true → dragOk st)
    (hng : ∀ c ∈ cs, c.isNewGame = false) :
    (placedLines (applyCmds st cs).slots : Multiset String) =
      (placedLines st.slots : Multiset String) := by
  have h := (count_applyCmds st cs ⟨hlen, hdrag⟩ hng).2
  refine Multiset.ext.2 fun s => ?_
  rw [Multiset.coe_count, Multiset.coe_count]
  by_cases hs : s = ""
  · subst hs
    rw [count_placedLines_empty, count_placedLines_empty]
  · rw [count_placedLines _ s hs, count_placedLines _ s hs, h s hs]

theorem c2_witness :
    (placedLines (applyCmds stDrag [Cmd.pUp (some (1 : Fin 14))]).slots : Multiset String) =
      (placedLines stDrag.slots : Multiset String) :=
  c2_multiset_conserved stDrag [Cmd.pUp (some (1 : Fin 14))] (by decide)
    (fun _ => ⟨0, "L01", rfl, rfl, by decide, by decide⟩) (by decide)

/-- Claim C6: whenever a drop changes the content of slot `i` (the swap
and the move touch exactly the source and the target), slot `i` is
removed from both the checked and the incorrect sets and the pass flag is
cleared, whatever their previous values. -/
theorem c6_changed_slot_cleared (st : GameState) (src : Fin 14) (l : String)
    (target : Option (Fin 14)) (i : ℕ)
    (h1 : st.isDragging = true) (h2 : st.draggedLine = some l) (h3 : l ≠ "")
    (h4 : st.draggedSlotIndex = some src)
    (hchange : (handlePointerUp st target).slots.getD i none ≠ st.slots.getD i none) :
    i ∉ (handlePointerUp st target).checkedSlots ∧
    i ∉ (handlePointerUp st target).incorrectSlots ∧
    (handlePointerUp st target).hasCheckedAndPassed = false := by
  have hguard : (st.isDragging && truthy st.draggedLine) = true := by
    rw [h1, h2]
    simp [truthy, h3]
  unfold handlePointerUp at hchange ⊢
  rw [if_pos hguard, h4] at hchange ⊢
  cases target with
  | none => exact absurd rfl hchange
  | some k =>
    dsimp only at hchange ⊢
    by_cases hsk : src = k
    · rw [if_pos hsk] at hchange ⊢
      exact absurd rfl hchange
    · rw [if_neg hsk] at hchange ⊢
      by_cases hocc : truthy (st.slots.getD k.val none) = true
      · rw [if_pos hocc] at hchange ⊢
        have hik : i = k.val ∨ i = src.val := by
          by_contra hcon
          push_neg at hcon
          apply hchange
          show ((st.slots.set k.val st.draggedLine).set src.val
            (st.slots.getD k.val none)).getD i none = st.slots.getD i none
          rw [getD_set_ne _ _ _ _ _ (fun he => hcon.2 he.symm),
            getD_set_ne _ _ _ _ _ (fun he => hcon.1 he.symm)]
        refine ⟨?_, ?_, rfl⟩ <;>
        · show i ∉ (Finset.erase _ k.val).erase src.val
          simp only [Finset.mem_erase]
          rcases hik with rfl | rfl <;> tauto
      · rw [if_neg hocc] at hchange ⊢
        have hik : i = k.val ∨ i = src.val := by
          by_contra hcon
          push_neg at hcon
          apply hchange
          show ((st.slots.set src.val none).set k.val
            st.draggedLine).getD i none = st.slots.getD i none
          rw [getD_set_ne _ _ _ _ _ (fun he => hcon.1 he.symm),
            getD_set_ne _ _ _ _ _ (fun he => hcon.2 he.symm)]
        refine ⟨?_, ?_, rfl⟩ <;>
        · show i ∉ (Finset.erase _ k.val).erase src.val
          simp only [Finset.mem_erase]
          rcases hik with rfl | rfl <;> tauto

theorem c6_witness :
    0 ∉ (handlePointerUp stDrag (some (1 : Fin 14))).checkedSlots ∧
    0 ∉ (handlePointerUp stDrag (some (1 : Fin 14))).incorrectSlots ∧
    (handlePointerUp stDrag (some (1 : Fin 14))).hasCheckedAndPassed = false :=
  c6_changed_slot_cleared stDrag 0 "L01" (some 1) 0 rfl rfl (by decide) rfl
    (by decide)

/-- Claim C10: in every state reachable from the loaded page (an
`initGame` followed by any event sequence), the checked and incorrect
sets only hold indices of occupied slots. -/
theorem c10_annotated_slots_occupied (so : Option (List String))
    (js1 js2 : List ℕ) (cs : List Cmd) (i : ℕ)
    (hmem : i ∈ (applyCmds (initGame initialState so js1 js2) cs).checkedSlots ∨
            i ∈ (applyCmds (initGame initialState so js1 js2) cs).incorrectSlots) :
    truthy ((applyCmds (initGame initialState so js1 js2) cs).slots.getD i none) = true := by
  have h0 : annOK initialState := by
    intro j hj
    simp [initialState] at hj
  exact annOK_applyCmds _ cs (annOK_initGame initialState so js1 js2 h0) i hmem

theorem c10_witness :
    truthy ((applyCmds (initGame initialState (some sonnetA) idJs idJs)
      [Cmd.checkClk 5]).slots.getD 0 none) = true :=
  c10_annotated_slots_occupied (some sonnetA) idJs idJs [Cmd.checkClk 5] 0
    (Or.inl (by decide))

/-- Claim C7: on a 14-line canonical sequence (of non-empty lines), the
board is completely correct exactly when the flagged set `checkOrder`
computes on the same state — empty slots plus occupied-but-wrong slots —
is empty. -/
theorem c7_complete_iff_no_flags (st : GameState) (sonnet : List String)
    (hso : st.currentSonnet = some sonnet) (hlen14 : sonnet.length = 14)
    (hslots : st.slots.length = 14) (hne : ∀ l ∈ sonnet, l ≠ "") :
    (isOrderCorrect st = true ↔ slotsToShake sonnet st.slots = ∅) := by
  unfold isOrderCorrect
  rw [hso]
  dsimp only
  rw [if_neg (by omega)]
  constructor
  · intro hc
    simp only [Bool.and_eq_true, List.all_eq_true, List.mem_range] at hc
    obtain ⟨ha, _⟩ := hc
    rw [Finset.eq_empty_iff_forall_not_mem]
    intro i hi
    unfold slotsToShake at hi
    rcases (mem_addWhere _ _ _ _).1 hi with hmem | ⟨hilen, hw⟩
    · simp at hmem
    · have hisl : i < sonnet.length := by omega
      have hieq : st.slots.getD i none = some (sonnet.getD i "") :=
        of_decide_eq_true (ha i hisl)
      have hmemln : sonnet.getD i "" ∈ sonnet := by
        rw [List.getD_eq_getElem sonnet "" hisl]
        exact List.getElem_mem hisl
      have hne2 : sonnet.getD i "" ≠ "" := hne _ hmemln
      unfold slotWrong at hw
      rw [hieq, if_pos hisl] at hw
      simp only [Bool.or_eq_true] at hw
      rcases hw with hw1 | hw2
      · exact hne2 (by simpa [truthy] using hw1)
      · exact absurd rfl (of_decide_eq_true hw2)
  · intro hempty
    simp only [Bool.and_eq_true, List.all_eq_true, List.mem_range]
    constructor
    · intro i hi
      have hni : i ∉ slotsToShake sonnet st.slots := by
        rw [hempty]
        exact Finset.not_mem_empty i
      unfold slotsToShake at hni
      rw [mem_addWhere] at hni
      push_neg at hni
      have hwf : slotWrong sonnet st.slots i = false := by
        have := hni.2 (by omega)
        simpa using this
      unfold slotWrong at hwf
      rw [if_pos hi] at hwf
      simp only [Bool.or_eq_false_iff] at hwf
      have heq : st.slots.getD i none = some (sonnet.getD i "") := by
        have := hwf.2
        simpa using of_decide_eq_false this
      simpa using heq
    · intro i hi
      rw [hlen14, hslots] at hi
      simp at hi

theorem c7_witness :
    isOrderCorrect stFull = true ↔ slotsToShake sonnetA stFull.slots = ∅ :=
  c7_complete_iff_no_flags stFull sonnetA rfl (by decide) (by decide) (by decide)

/-- Claim C8: with an active shake timer started at `t > 0` queried at
`now ≥ t`: once 500 ms have elapsed the offset is 0, the timer state is
cleared and every later query returns 0; before 500 ms a flagged slot's
offset is `sin(elapsed·20·π/1000) · 10 · (1 − elapsed/500)` while a slot
outside the flagged set — or any query with no timer — gets 0. -/
theorem c8_shake_timer (st : GameState) (t now : ℕ)
    (h1 : st.shakeStartTime = some t) (h2 : 0 < t) (_h3 : t ≤ now) :
    (500 ≤ now - t →
      (getShakeOffset st now).1 = 0 ∧
      (getShakeOffset st now).2.shakingSlots = ∅ ∧
      (getShakeOffset st now).2.shakeStartTime = none ∧
      ∀ (i now2 : ℕ), (offsetFor (getShakeOffset st now).2 i now2).1 = 0) ∧
    (now - t < 500 →
      (∀ i ∈ st.shakingSlots,
        (offsetFor st i now).1 =
          Real.sin (((now - t : ℕ) : ℝ) * 20 * Real.pi / 1000) * 10 *
            (1 - ((now - t : ℕ) : ℝ) / 500)) ∧
      ∀ i : ℕ, i ∉ st.shakingSlots → (offsetFor st i now).1 = 0) ∧
    ∀ (st2 : GameState), st2.shakeStartTime = none →
      ∀ (i now2 : ℕ), (offsetFor st2 i now2).1 = 0 := by
  have ht0 : ¬ t = 0 := by omega
  refine ⟨?_, ?_, ?_⟩
  · intro he
    unfold getShakeOffset
    rw [h1]
    dsimp only
    rw [if_neg ht0, if_pos he]
    refine ⟨rfl, rfl, rfl, fun i now2 => ?_⟩
    unfold offsetFor
    rw [if_neg (by simp)]
  · intro he
    refine ⟨fun i hi => ?_, fun i hi => ?_⟩
    · unfold offsetFor
      rw [if_pos hi]
      unfold getShakeOffset
      rw [h1]
      dsimp only
      rw [if_neg ht0, if_neg (by omega)]
      show shakeWave (now - t) = _
      unfold shakeWave
      ring
    · unfold offsetFor
      rw [if_neg hi]
  · intro st2 hst2 i now2
    unfold offsetFor
    by_cases hm : i ∈ st2.shakingSlots
    · rw [if_pos hm]
      unfold getShakeOffset
      rw [hst2]
    · rw [if_neg hm]

theorem c8_witness :
    (500 ≤ 700 - 100) ∧
    (getShakeOffset stShake 700).1 = 0 ∧
    (getShakeOffset stShake 700).2.shakingSlots = ∅ ∧
    (getShakeOffset stShake 700).2.shakeStartTime = none :=
  have h := c8_shake_timer stShake 100 700 rfl (by decide) (by decide)
  ⟨by decide, (h.1 (by decide)).1, (h.1 (by decide)).2.1, (h.1 (by decide)).2.2.1⟩

end Sonnet
